import Mathlib

/-!
# Verification of the `duck_search` retrieval engine

Shallow embedding of `src/training/duck_search/duck_search.py` and its two
result-page parsers (`parsers/html.py`, `parsers/lite.py`), together with
proofs of the behavioural properties stated in the specification.

Modelling conventions:
* Machine floats of the token bucket and backoff policy become `ℚ`.
* Python `set` mutation becomes explicit state passing over `List String`.
* The HTTP transport becomes a function from the attempt number to a scripted
  response, and the pagination transport becomes a scripted list of responses.
* Exceptions become an inductive error type carried by `Except`.
-/

set_option autoImplicit false

namespace DuckSearch

/-- The exception taxonomy of `duck_search.exceptions` as raised by
`duck_search.py`: `timeout` is `TimeoutException`; `search` and `wrapped`
are the two argument shapes in which `DuckDuckGoSearchException` is raised
(`wrapped` is the orchestrator's `DuckDuckGoSearchException(last_err)`);
`ratelimit` is `RatelimitException`. -/
inductive SearchExn where
  | timeout (msg : String)
  | search (msg : String)
  | ratelimit (msg : String)
  | wrapped (last : Option SearchExn)

/-- One transport outcome: either `self.client.request` raises (with a
message), or it returns a response with a status code and a content body
(bytes modelled as `List Nat`). -/
inductive TResp where
  | exn (msg : String)
  | http (status : Nat) (content : List Nat)

/-- `"time" in str(ex).lower()` from `_make_request`'s exception handler. -/
def msgIsTimeout (msg : String) : Bool :=
  (msg.toLower.splitOn "time").length ≠ 1

/-- The body of `DuckSearch._make_request`'s `for attempt in range(1,
max_attempts+1)` loop. `attempt` is the current attempt number, the second
`Nat` is the number of loop iterations still allowed (`max_attempts + 1 -
attempt` at the top-level call). Each iteration first acquires a rate-limiter
token; the returned `Nat` counts those acquisitions. Falling off the end of
the loop is the final `raise RatelimitException` of the Python code. -/
def makeRequestAux (transport : Nat → TResp) (maxAttempts : Nat) :
    Nat → Nat → Except SearchExn (List Nat) × Nat
  | _attempt, 0 => (Except.error (SearchExn.ratelimit "exceeded rate limit"), 0)
  | attempt, fuel + 1 =>
    match transport attempt with
    | TResp.exn msg =>
      if msgIsTimeout msg then (Except.error (SearchExn.timeout msg), 1)
      else (Except.error (SearchExn.search msg), 1)
    | TResp.http status content =>
      if status = 200 then (Except.ok content, 1)
      else if status = 202 ∨ status = 301 ∨ status = 403 then
        if attempt < maxAttempts then
          let out := makeRequestAux transport maxAttempts (attempt + 1) fuel
          (out.1, out.2 + 1)
        else (Except.error (SearchExn.search ("returned status " ++ toString status)), 1)
      else (Except.error (SearchExn.search ("returned status " ++ toString status)), 1)

/-- `DuckSearch._make_request` with its hard-coded `max_attempts = 5`:
run the attempt loop from attempt 1. -/
def makeRequest (transport : Nat → TResp) : Except SearchExn (List Nat) × Nat :=
  makeRequestAux transport 5 1 5

/-- Whether a `SearchExn` is the `RatelimitException` class. -/
def SearchExn.isRatelimit : SearchExn → Bool
  | SearchExn.ratelimit _ => true
  | _ => false

/-- `DuckSearch._wait_for_token`, with the wall clock abstracted into the
list of elapsed times (`now - self.token_last_refill`) observed at each
entry of the (recursive) call. Each entry refills
`tokens := min(bucket_capacity, tokens + elapsed * refill_rate)` and then
either debits one token and returns the new level, or sleeps and recurses.
`none` means the scripted clock ran out before a token became available. -/
def waitForToken (cap rate : ℚ) : List ℚ → ℚ → Option ℚ
  | [], _tokens => none
  | e :: es, tokens =>
    let t := min cap (tokens + e * rate)
    if t < 1 then waitForToken cap rate es t
    else some (t - 1)

/-- `DuckSearch._calculate_backoff` with the sample of
`random.uniform(0.8, 1.2)` made an explicit argument `u`. -/
def calculateBackoff (attempt : Nat) (u : ℚ) : ℚ :=
  let baseDelay : ℚ := 1
  let delay := baseDelay * 2 ^ (attempt - 1)
  delay * u

/-- One search result dictionary `{"title": ..., "href": ..., "body": ...}`. -/
structure SearchResult where
  title : String
  href : String
  body : String
deriving Repr, DecidableEq

/-- Python's `str.startswith` on character lists (Lean's own
`String.startsWith` does not reduce in the kernel). -/
def strStartsWith (s p : String) : Bool :=
  p.data.isPrefixOf s.data

/-- Split a character list into maximal space-free words (`acc` holds the
current word, reversed). -/
def splitWords : List Char → List Char → List String
  | [], [] => []
  | [], acc => [String.mk acc.reverse]
  | c :: cs, acc =>
    if c = ' ' then
      if acc = [] then splitWords cs []
      else String.mk acc.reverse :: splitWords cs []
    else splitWords cs (c :: acc)

/-- Modelled from the spec: `duck_search.utils._normalize` is not under
`src/`; the spec asks both backends to "normalize extracted text (collapse
whitespace, ...)", so we collapse whitespace runs. -/
def normalize (s : String) : String :=
  String.intercalate " " (splitWords s.data [])

/-- Drop everything from the first occurrence of `?utm_` on. -/
def stripTracking : List Char → List Char
  | [] => []
  | c :: cs =>
    if c = '?' ∧ "utm_".data.isPrefixOf cs then []
    else c :: stripTracking cs

/-- Modelled from the spec: `duck_search.utils._normalize_url` is not under
`src/`; the spec asks both backends to "normalize the href (... strip
tracking parameters)", so we strip a tracking query starting at `?utm_`. -/
def normalizeUrl (s : String) : String :=
  String.mk (stripTracking s.data)

/-- The first advertising prefix filtered by both parsers. -/
def adPrefix1 : String := "http://www.google.com/search?q="

/-- The second advertising prefix filtered by both parsers. -/
def adPrefix2 : String := "https://duckduckgo.com/y.js?ad_domain"

/-- One `//div[h2]` element of an HTML-backend page, abstracted to the three
pieces `HtmlParser._extract_result` reads from it: `./a/@href` (first match
or `None`), `./h2/a/text()` (first match or `""`), and the joined
`./a//text()`. -/
structure HtmlElement where
  href : Option String
  title : String
  body : String

/-- `HtmlParser._extract_result`: `{}` (here `none`) when the href is
missing, empty, or starts with one of the advertising prefixes; otherwise
the normalized result dictionary. -/
def htmlExtractResult (e : HtmlElement) : Option SearchResult :=
  match e.href with
  | none => none
  | some h =>
    if h = "" ∨ strStartsWith h adPrefix1 ∨ strStartsWith h adPrefix2 then none
    else some ⟨normalize e.title, normalizeUrl h, normalize e.body⟩

/-- `HtmlParser._extract_results` (the body of `HtmlParser.parse`): walk the
extracted elements, keep a result when it is non-empty and its (normalized)
`href` is not in `seen`, inserting the `href` into `seen`. Returns the page
results together with the updated `seen` set. -/
def htmlExtractResults : List HtmlElement → List String → List SearchResult × List String
  | [], seen => ([], seen)
  | e :: es, seen =>
    match htmlExtractResult e with
    | none => htmlExtractResults es seen
    | some r =>
      if r.href ∈ seen then htmlExtractResults es seen
      else
        let out := htmlExtractResults es (r.href :: seen)
        (r :: out.1, out.2)

/-- One `//table[last()]//tr` row of a lite-backend page, abstracted to what
`LiteParser._extract_results` reads from a row: `.//a//@href` (first match
or `None`), `.//a//text()` (first match or `""`), and the joined
`.//td[@class='result-snippet']//text()` (used when the row serves as the
snippet row). -/
structure LiteRow where
  href : Option String
  title : String
  snippet : String

/-- `LiteParser._extract_results` (the body of `LiteParser.parse`): rows come
in groups; a result row is followed by a snippet row and two further rows.
A row whose raw href is missing, empty, already in `seen`, or an ad link is
skipped together with the next three rows. Otherwise the RAW href is added
to `seen`, the snippet row is consumed (if the iterator ends here, Python's
`StopIteration` returns the results accumulated so far — the href stays in
`seen`), the result (with NORMALIZED href) is appended, and two further
rows are skipped — again three rows after the result row. The skips are
written as nested patterns (`Python`'s `next(data)` raising `StopIteration`
when fewer rows remain corresponds to the catch-all short patterns), which
keeps the recursion structural. -/
def liteExtractResults : List LiteRow → List String → List SearchResult × List String
  | [], seen => ([], seen)
  | row1 :: rest, seen =>
    match row1.href with
    | none =>
      match rest with
      | _ :: _ :: _ :: rest' => liteExtractResults rest' seen
      | _ => ([], seen)
    | some h =>
      if h = "" ∨ h ∈ seen ∨ strStartsWith h adPrefix1 ∨ strStartsWith h adPrefix2 then
        match rest with
        | _ :: _ :: _ :: rest' => liteExtractResults rest' seen
        | _ => ([], seen)
      else
        match rest with
        | [] => ([], h :: seen)
        | row2 :: rest2 =>
          let r : SearchResult := ⟨normalize row1.title, normalizeUrl h, normalize row2.snippet⟩
          let out :=
            match rest2 with
            | _ :: _ :: rest' => liteExtractResults rest' (h :: seen)
            | _ => ([], h :: seen)
          (r :: out.1, out.2)

/-- The parser interface consumed by `DuckSearch._search_paginated`
(`no_results`, `parse`, `next_payload`), over an abstract page-content type
`γ`. A payload is a `dict[str, str]`. -/
structure ParserI (γ : Type) where
  no_results : γ → Bool
  parse : γ → List String → List SearchResult × List String
  next_payload : γ → Option (List (String × String))

/-- Outcome of one run of the pagination loop: a returned result list, a
raised exception, or the scripted transport running out of responses (a run
that is not captured by the script). -/
inductive LoopOut (ε : Type) where
  | ok (results : List SearchResult)
  | err (e : ε)
  | outOfScript

/-- The `while True` loop of `DuckSearch._search_paginated`. The transport is
a script: the `n`-th `_make_request` call yields the `n`-th list entry
(content or raised exception). Returns the loop outcome and the number of
requests issued. `max_results` keeps Python truthiness: the truncation check
fires only when `max_results` is present AND nonzero. -/
def searchPaginatedAux {γ ε : Type} (P : ParserI γ) (maxResults : Option Nat) :
    List (Except ε γ) → List SearchResult → List String → LoopOut ε × Nat
  | [], _results, _seen => (LoopOut.outOfScript, 0)
  | resp :: rest, results, seen =>
    match resp with
    | Except.error e => (LoopOut.err e, 1)
    | Except.ok content =>
      if P.no_results content then (LoopOut.ok results, 1)
      else
        let page := P.parse content seen
        let results' := results ++ page.1
        let hitLimit : Bool :=
          match maxResults with
          | some m => decide (m ≠ 0) && decide (m ≤ results'.length)
          | none => false
        if hitLimit then (LoopOut.ok (results'.take (maxResults.getD 0)), 1)
        else
          match P.next_payload content with
          | none => (LoopOut.ok results', 1)
          | some p =>
            if p = [] then (LoopOut.ok results', 1)
            else
              let out := searchPaginatedAux P maxResults rest results' page.2
              (out.1, out.2 + 1)

/-- `DuckSearch._search_paginated`: run the loop with an empty accumulator
and a fresh `seen` set. -/
def searchPaginated {γ ε : Type} (P : ParserI γ) (maxResults : Option Nat)
    (script : List (Except ε γ)) : LoopOut ε × Nat :=
  searchPaginatedAux P maxResults script [] []

/-- The backend-fallback loop of `DuckSearch.text`: try each candidate in
order; `"html"` and `"lite"` dispatch to `_search_paginated` (abstracted as
`run`), any other name falls through silently; an exception is recorded in
`last_err`; when the candidates are exhausted, raise
`DuckDuckGoSearchException(last_err)`. -/
def textLoop (run : String → Except SearchExn (List SearchResult)) :
    List String → Option SearchExn → Except SearchExn (List SearchResult)
  | [], lastErr => Except.error (SearchExn.wrapped lastErr)
  | b :: bs, lastErr =>
    if b = "html" ∨ b = "lite" then
      match run b with
      | Except.ok rs => Except.ok rs
      | Except.error e => textLoop run bs (some e)
    else textLoop run bs lastErr

/-- `DuckSearch.text`: deprecated backends map to `"auto"`; `"auto"` resolves
to `["html", "lite"]`, a specific backend to the singleton list;
`random.shuffle` is the explicit argument `shuffle`; then the fallback loop
runs with `last_err = None`. -/
def textSearch (run : String → Except SearchExn (List SearchResult))
    (shuffle : List String → List String) (backend : String) :
    Except SearchExn (List SearchResult) :=
  let backend := if backend = "api" ∨ backend = "ecosia" then "auto" else backend
  let backends := if backend = "auto" then shuffle ["html", "lite"] else shuffle [backend]
  textLoop run backends none

/-! ## Concrete instances used to witness the theorems -/

/-- A backend run (the result of `_search_paginated`) that always fails with
`DuckDuckGoSearchException("boom")`. -/
def runBoom : String → Except SearchExn (List SearchResult) :=
  fun _ => Except.error (SearchExn.search "boom")

/-- A backend run that always fails with `RatelimitException("rl")`. -/
def runRl : String → Except SearchExn (List SearchResult) :=
  fun _ => Except.error (SearchExn.ratelimit "rl")

/-- A backend run that always succeeds with an empty result list. -/
def runEmpty : String → Except SearchExn (List SearchResult) :=
  fun _ => Except.ok []

/-- A trivial parser instance over `Nat` contents: no page is exhausted,
pages parse to nothing, and there is never a continuation. -/
def noopParser : ParserI Nat :=
  ParserI.mk (fun _ => false) (fun _ s => ([], s)) (fun _ => none)

/-- A parser instance over `Nat` contents used to script pagination:
content `0` is an exhausted page, content `1` has no continuation, any
other content continues. Pages parse to nothing. -/
def natParser : ParserI Nat :=
  ParserI.mk (fun n => decide (n = 0)) (fun _ s => ([], s))
    (fun n => if n = 1 then none else some [("s", toString n)])

/-- A parser instance whose page content is literally the list of results
it parses to (ignoring `seen`), never exhausted, always continuing. -/
def echoParser : ParserI (List SearchResult) :=
  ParserI.mk (fun _ => false) (fun c s => (c, s)) (fun _ => some [("s", "1")])

/-- Seven distinct sample results used to script the truncation example
(3 on page one, 4 on page two). -/
def sampleResults : List SearchResult :=
  [SearchResult.mk "t1" "h1" "b1", SearchResult.mk "t2" "h2" "b2",
   SearchResult.mk "t3" "h3" "b3", SearchResult.mk "t4" "h4" "b4",
   SearchResult.mk "t5" "h5" "b5", SearchResult.mk "t6" "h6" "b6",
   SearchResult.mk "t7" "h7" "b7"]

/-! ## Helper lemmas -/

/-- Any token level returned by `waitForToken` lies in `[0, cap]`: the debit
branch fires only when the refilled level is at least `1`, and the refilled
level is capped by `cap`. -/
theorem waitForToken_some_bounds (cap rate : ℚ) :
    ∀ (es : List ℚ) (tokens r : ℚ),
      waitForToken cap rate es tokens = some r → 0 ≤ r ∧ r ≤ cap := by
  intro es
  induction es with
  | nil => intro tokens r h; simp [waitForToken] at h
  | cons e es ih =>
    intro tokens r h
    simp only [waitForToken] at h
    by_cases hlt : min cap (tokens + e * rate) < 1
    · rw [if_pos hlt] at h
      exact ih _ r h
    · rw [if_neg hlt] at h
      have hr : min cap (tokens + e * rate) - 1 = r := Option.some.inj h
      have h1 : (1 : ℚ) ≤ min cap (tokens + e * rate) := le_of_not_lt hlt
      have h2 : min cap (tokens + e * rate) ≤ cap := min_le_left _ _
      constructor <;> linarith

/-! ## C1: retry exhaustion -/

/-- C1 (code bug): with every transport call returning HTTP 403 and
`max_attempts = 5`, `_make_request` performs exactly 5 attempts (each
acquiring a rate-limiter token), but the exception raised on the fifth
attempt is the in-loop `DuckDuckGoSearchException("... returned status
403")`, not `RatelimitException`: the `raise RatelimitException` after the
loop is unreachable. -/
theorem makeRequest_all403_raises_search_not_ratelimit :
    makeRequest (fun _ => TResp.http 403 []) =
      (Except.error (SearchExn.search ("returned status " ++ toString 403)), 5) ∧
    (SearchExn.search ("returned status " ++ toString 403)).isRatelimit = false := by
  constructor
  · rfl
  · rfl

/-! ## C6: token-bucket invariant -/

/-- C6: starting from a token level in `[0, capacity]`, the level after any
completed `_wait_for_token` call is again in `[0, capacity]`; and on a call
whose first refill `min(capacity, tokens + elapsed * refill_rate)` already
reaches `1`, the call returns immediately with exactly that refilled level
minus the single debited token — the refill (capped at capacity) happens
before the debit. -/
theorem token_bucket_invariant :
    (∀ (cap rate tokens r : ℚ) (es : List ℚ),
      0 ≤ tokens → tokens ≤ cap →
      waitForToken cap rate es tokens = some r → 0 ≤ r ∧ r ≤ cap) ∧
    (∀ (cap rate tokens e : ℚ) (es : List ℚ),
      ¬ min cap (tokens + e * rate) < 1 →
      waitForToken cap rate (e :: es) tokens =
        some (min cap (tokens + e * rate) - 1)) := by
  constructor
  · intro cap rate tokens r es _h0 _hc h
    exact waitForToken_some_bounds cap rate es tokens r h
  · intro cap rate tokens e es hge
    simp only [waitForToken, if_neg hge]

/-- Witness for C6 at the code's constants `capacity = 1`, `refill_rate =
1/6`, an empty bucket and a 6-second refill gap. -/
theorem token_bucket_invariant_witness :
    ((0 : ℚ) ≤ 0 ∧ (0 : ℚ) ≤ 1) ∧
    waitForToken 1 (1/6) [(6 : ℚ)] 0 = some (min 1 (0 + 6 * (1/6)) - 1) :=
  ⟨token_bucket_invariant.1 1 (1/6) 0 0 [6] (by norm_num) (by norm_num)
    (by norm_num [waitForToken]),
   token_bucket_invariant.2 1 (1/6) 0 6 [] (by norm_num)⟩

/-! ## C8: backoff growth -/

/-- C8: for every attempt ≥ 1 and jitter sample `u ∈ [0.8, 1.2]`, the
backoff delay `base_delay * 2^(attempt-1) * u` lies within
`[0.8 * 2^(attempt-1), 1.2 * 2^(attempt-1)]`, and the jitter-free delay
(`u = 1`) strictly increases with the attempt number. -/
theorem backoff_growth (attempt : Nat) (u : ℚ) (ha : 1 ≤ attempt)
    (hu1 : 4/5 ≤ u) (hu2 : u ≤ 6/5) :
    (4/5) * 2 ^ (attempt - 1) ≤ calculateBackoff attempt u ∧
    calculateBackoff attempt u ≤ (6/5) * 2 ^ (attempt - 1) ∧
    calculateBackoff attempt 1 < calculateBackoff (attempt + 1) 1 := by
  have hpow : (0 : ℚ) < 2 ^ (attempt - 1) := by positivity
  refine ⟨?_, ?_, ?_⟩
  · show (4/5 : ℚ) * 2 ^ (attempt - 1) ≤ 1 * 2 ^ (attempt - 1) * u
    nlinarith
  · show (1 : ℚ) * 2 ^ (attempt - 1) * u ≤ (6/5) * 2 ^ (attempt - 1)
    nlinarith
  · show (1 : ℚ) * 2 ^ (attempt - 1) * 1 < 1 * 2 ^ (attempt + 1 - 1) * 1
    have hlt : attempt - 1 < attempt + 1 - 1 := by omega
    have := pow_lt_pow_right₀ (by norm_num : (1 : ℚ) < 2) hlt
    simpa using this

/-- Witness for C8 at `attempt = 3`, `u = 1`. -/
theorem backoff_growth_witness :
    (4/5 : ℚ) * 2 ^ (3 - 1) ≤ calculateBackoff 3 1 ∧
    calculateBackoff 3 1 ≤ (6/5) * 2 ^ (3 - 1) ∧
    calculateBackoff 3 1 < calculateBackoff (3 + 1) 1 :=
  backoff_growth 3 1 (by norm_num) (by norm_num) (by norm_num)

/-! ## C9: max_results = 0 -/

/-- The pagination loop with `max_results = 0` behaves exactly like
`max_results = None` from any loop state: `if max_results and ...` is
falsy for `0`. -/
theorem searchPaginatedAux_zero_eq_none {γ ε : Type} (P : ParserI γ) :
    ∀ (script : List (Except ε γ)) (results : List SearchResult) (seen : List String),
      searchPaginatedAux P (some 0) script results seen =
        searchPaginatedAux P none script results seen := by
  intro script
  induction script with
  | nil => intro results seen; rfl
  | cons resp rest ih =>
    intro results seen
    cases resp with
    | error e => rfl
    | ok content =>
      by_cases hnr : P.no_results content
      · simp [searchPaginatedAux, hnr]
      · cases hnp : P.next_payload content with
        | none => simp [searchPaginatedAux, hnr, hnp]
        | some p =>
          by_cases hp : p = []
          · simp [searchPaginatedAux, hnr, hnp, hp]
          · simp [searchPaginatedAux, hnr, hnp, hp, ih]

/-- C9: calling the pagination loop with `max_results = 0` never triggers
the limit check — it runs to exhaustion and returns everything, exactly as
`max_results = None` does, rather than returning an empty list. -/
theorem max_results_zero_no_limit {γ ε : Type} (P : ParserI γ)
    (script : List (Except ε γ)) :
    searchPaginated P (some 0) script = searchPaginated P none script :=
  searchPaginatedAux_zero_eq_none P script [] []

/-! ## C10: unknown backend -/

/-- C10: a backend name outside `{"html", "lite", "auto", "api", "ecosia"}`
reaches the fallback loop as a singleton candidate list, matches neither
dispatch branch (so no request is ever issued — the transport `run` is
arbitrary and unused), and the loop falls off the end raising
`DuckDuckGoSearchException(None)`. -/
theorem unknown_backend_raises_wrapped_none
    (run : String → Except SearchExn (List SearchResult))
    (shuffle : List String → List String) (b : String)
    (hperm : (shuffle [b]).Perm [b])
    (h1 : b ≠ "html") (h2 : b ≠ "lite") (h3 : b ≠ "auto")
    (h4 : b ≠ "api") (h5 : b ≠ "ecosia") :
    textSearch run shuffle b = Except.error (SearchExn.wrapped none) := by
  have hsingle : shuffle [b] = [b] := List.perm_singleton.mp hperm
  have hne : ¬ (b = "api" ∨ b = "ecosia") := by simp [h4, h5]
  have hnb : ¬ (b = "html" ∨ b = "lite") := by simp [h1, h2]
  simp only [textSearch, if_neg hne, if_neg h3, hsingle, textLoop, if_neg hnb]

/-- Witness for C10 at the backend name `"bogus"`. -/
theorem unknown_backend_raises_wrapped_none_witness :
    textSearch (fun _ => Except.ok []) (fun l => l) "bogus" =
      Except.error (SearchExn.wrapped none) :=
  unknown_backend_raises_wrapped_none (fun _ => Except.ok []) (fun l => l) "bogus"
    (List.Perm.refl _) (by decide) (by decide) (by decide) (by decide) (by decide)

/-! ## C3: specific-backend error propagation -/

/-- C3 (counterexample): with `backend = "html"` requested and the html
pagination run raising `RatelimitException("rl")`, `text` does NOT
propagate that error unchanged: it raises
`DuckDuckGoSearchException(last_err)` wrapping it. -/
theorem specific_backend_wraps_counterexample :
    textSearch runRl (fun l => l) "html" =
      Except.error (SearchExn.wrapped (some (SearchExn.ratelimit "rl"))) ∧
    textSearch runRl (fun l => l) "html" ≠
      Except.error (SearchExn.ratelimit "rl") := by
  constructor
  · rfl
  · intro h
    rw [show textSearch runRl (fun l => l) "html" =
        Except.error (SearchExn.wrapped (some (SearchExn.ratelimit "rl"))) from rfl] at h
    injection h with h'
    cases h'

/-- C3 (amended): when a specific backend (`"html"` or `"lite"`) is
requested and its pagination run raises `e`, `text` tries no other backend
(the outcome depends only on `run` at the requested backend) but raises
`DuckDuckGoSearchException(e)` — the same wrapping used in the
`backend="auto"` case — rather than propagating `e` unchanged. -/
theorem specific_backend_wraps
    (run run' : String → Except SearchExn (List SearchResult))
    (shuffle : List String → List String) (b : String) (e : SearchExn)
    (hb : b = "html" ∨ b = "lite")
    (hperm : (shuffle [b]).Perm [b])
    (hrun : run b = Except.error e) :
    textSearch run shuffle b = Except.error (SearchExn.wrapped (some e)) ∧
    (run' b = run b → textSearch run' shuffle b = textSearch run shuffle b) := by
  have hsingle : shuffle [b] = [b] := List.perm_singleton.mp hperm
  have hnotdep : ∀ (r : String → Except SearchExn (List SearchResult)),
      textSearch r shuffle b = textLoop r [b] none := by
    intro r
    have hne : ¬ (b = "api" ∨ b = "ecosia") := by
      rcases hb with hb | hb <;> simp [hb]
    have hna : ¬ b = "auto" := by
      rcases hb with hb | hb <;> simp [hb]
    simp only [textSearch, if_neg hne, if_neg hna, hsingle]
  constructor
  · rw [hnotdep run]
    simp only [textLoop, if_pos hb, hrun]
  · intro heq
    rw [hnotdep run, hnotdep run']
    simp only [textLoop, if_pos hb, hrun, heq]

/-- Witness for C3's amended theorem at `b = "html"`. -/
theorem specific_backend_wraps_witness :
    textSearch runBoom (fun l => l) "html" =
      Except.error (SearchExn.wrapped (some (SearchExn.search "boom"))) ∧
    (runBoom "html" = runBoom "html" →
      textSearch runBoom (fun l => l) "html" = textSearch runBoom (fun l => l) "html") :=
  specific_backend_wraps runBoom runBoom (fun l => l) "html"
    (SearchExn.search "boom") (Or.inl rfl) (List.Perm.refl _) rfl

/-! ## C4: all-or-nothing results -/

/-- If the fallback loop returns a result list, it is exactly the complete
output of one of the two real backends. -/
theorem textLoop_ok_from_backend
    (run : String → Except SearchExn (List SearchResult)) :
    ∀ (bs : List String) (lastErr : Option SearchExn) (rs : List SearchResult),
      textLoop run bs lastErr = Except.ok rs →
      run "html" = Except.ok rs ∨ run "lite" = Except.ok rs := by
  intro bs
  induction bs with
  | nil => intro lastErr rs h; simp [textLoop] at h
  | cons b bs ih =>
    intro lastErr rs h
    simp only [textLoop] at h
    by_cases hb : b = "html" ∨ b = "lite"
    · rw [if_pos hb] at h
      cases hrun : run b with
      | ok rs' =>
        rw [hrun] at h
        have : rs' = rs := Except.ok.inj h
        subst this
        rcases hb with hb | hb
        · exact Or.inl (hb ▸ hrun)
        · exact Or.inr (hb ▸ hrun)
      | error e =>
        rw [hrun] at h
        exact ih (some e) rs h
    · rw [if_neg hb] at h
      exact ih lastErr rs h

/-- C4: a mid-pagination request failure makes the whole backend attempt
fail — whatever was accumulated in `results` is discarded, never returned;
and any result list returned by `text` is the complete output of exactly
one backend run (never merged across backends). -/
theorem all_or_nothing :
    (∀ (γ ε : Type) (P : ParserI γ) (m : Option Nat) (e : ε)
        (rest : List (Except ε γ)) (results : List SearchResult) (seen : List String),
      (searchPaginatedAux P m (Except.error e :: rest) results seen).1 = LoopOut.err e) ∧
    (∀ (run : String → Except SearchExn (List SearchResult))
        (shuffle : List String → List String) (backend : String) (rs : List SearchResult),
      textSearch run shuffle backend = Except.ok rs →
      run "html" = Except.ok rs ∨ run "lite" = Except.ok rs) := by
  constructor
  · intro γ ε P m e rest results seen
    rfl
  · intro run shuffle backend rs h
    exact textLoop_ok_from_backend run _ none rs h

/-- Witness for C4: the discard branch at a concrete failing script, and a
successful `"auto"` search whose output is one backend's complete output. -/
theorem all_or_nothing_witness :
    (searchPaginatedAux noopParser none ((Except.error 7 : Except Nat Nat) :: [])
        [SearchResult.mk "t" "h" "b"] []).1 = LoopOut.err 7 ∧
    (runEmpty "html" = Except.ok [] ∨ runEmpty "lite" = Except.ok []) :=
  ⟨all_or_nothing.1 Nat Nat noopParser none 7 [] [SearchResult.mk "t" "h" "b"] [],
   all_or_nothing.2 runEmpty (fun l => l) "auto" [] rfl⟩

/-! ## C5: result-limit truncation -/

/-- C5: whenever the accumulated results of the pagination loop first reach
or exceed a positive `max_results` after parsing a page, the loop returns
exactly the first `max_results` accumulated results in their original
order; in particular the scripted 3-results-then-4-results run with
`max_results = 5` returns all 3 results of page one followed by the first
2 of page two, in 2 requests. -/
theorem max_results_truncation :
    (∀ (γ ε : Type) (P : ParserI γ) (m : Nat) (content : γ)
        (rest : List (Except ε γ)) (results : List SearchResult) (seen : List String),
      m ≠ 0 → P.no_results content = false →
      m ≤ (results ++ (P.parse content seen).1).length →
      (searchPaginatedAux P (some m) (Except.ok content :: rest) results seen).1 =
        LoopOut.ok ((results ++ (P.parse content seen).1).take m)) ∧
    searchPaginated echoParser (some 5)
        [(Except.ok (sampleResults.take 3) : Except Unit (List SearchResult)),
         Except.ok (sampleResults.drop 3)] =
      (LoopOut.ok (sampleResults.take 5), 2) := by
  constructor
  · intro γ ε P m content rest results seen hm hnr hlen
    have hlen' : m ≤ results.length + (P.parse content seen).1.length := by
      simpa [List.length_append] using hlen
    simp [searchPaginatedAux, hnr, hm, hlen']
  · rfl

/-- Witness for C5's general conjunct: the second loop iteration of the
3-then-4 scripted run, where 5 results are first reached. -/
theorem max_results_truncation_witness :
    (searchPaginatedAux echoParser (some 5)
        ((Except.ok (sampleResults.drop 3) : Except Unit (List SearchResult)) :: [])
        (sampleResults.take 3) []).1 =
      LoopOut.ok (((sampleResults.take 3) ++
        (echoParser.parse (sampleResults.drop 3) []).1).take 5) :=
  max_results_truncation.1 (List SearchResult) Unit echoParser 5 (sampleResults.drop 3)
    [] (sampleResults.take 3) [] (by decide) rfl (by decide)

/-! ## C7: pagination termination -/

/-- C7: a scripted run of successful pages in which every page but the last
continues (not exhausted, truthy `next_payload`) and the last page's
`next_payload` is falsy (none or the empty dict) issues exactly one request
per page — `pages.length + 1` in total — and stops; and a page for which
`no_results` holds terminates the loop immediately with the results
accumulated so far, regardless of its `parse` or `next_payload`. -/
theorem pagination_termination :
    (∀ (γ ε : Type) (P : ParserI γ) (pages : List γ) (lastPage : γ)
        (results : List SearchResult) (seen : List String),
      (∀ p ∈ pages, P.no_results p = false ∧ P.next_payload p ≠ none ∧
        P.next_payload p ≠ some []) →
      P.no_results lastPage = false →
      (P.next_payload lastPage = none ∨ P.next_payload lastPage = some []) →
      (searchPaginatedAux P none
          ((pages ++ [lastPage]).map (Except.ok : γ → Except ε γ)) results seen).2 =
        pages.length + 1) ∧
    (∀ (γ ε : Type) (P : ParserI γ) (m : Option Nat) (content : γ)
        (rest : List (Except ε γ)) (results : List SearchResult) (seen : List String),
      P.no_results content = true →
      searchPaginatedAux P m (Except.ok content :: rest) results seen =
        (LoopOut.ok results, 1)) := by
  constructor
  · intro γ ε P pages
    induction pages with
    | nil =>
      intro lastPage results seen _hpages hlast hnext
      rcases hnext with hnp | hnp <;> simp [searchPaginatedAux, hlast, hnp]
    | cons p ps ih =>
      intro lastPage results seen hpages hlast hnext
      obtain ⟨hp1, hp2, hp3⟩ := hpages p (List.mem_cons_self p ps)
      cases hq : P.next_payload p with
      | none => exact absurd hq hp2
      | some q =>
        have hqne : q ≠ [] := by
          intro h
          exact hp3 (by rw [hq, h])
        have hih := ih lastPage (results ++ (P.parse p seen).1) (P.parse p seen).2
          (fun x hx => hpages x (List.mem_cons_of_mem _ hx)) hlast hnext
        simp only [List.map_append, List.map_cons, List.map_nil] at hih
        simp [searchPaginatedAux, hp1, hq, hqne, hih]
  · intro γ ε P m content rest results seen h
    simp [searchPaginatedAux, h]

/-- Witness for C7: two continuing pages (`2`, `3`) followed by page `1`
whose continuation is `none` take exactly 3 requests, and the exhausted
page `0` stops immediately after 1 request. -/
theorem pagination_termination_witness :
    (searchPaginatedAux natParser none
        (([2, 3] ++ [1]).map (Except.ok : Nat → Except Unit Nat)) [] []).2 =
      [2, 3].length + 1 ∧
    searchPaginatedAux natParser none
        ((Except.ok : Nat → Except Unit Nat) 0 :: []) [] [] = (LoopOut.ok [], 1) :=
  ⟨pagination_termination.1 Nat Unit natParser [2, 3] 1 [] [] (by decide) rfl (Or.inl rfl),
   pagination_termination.2 Nat Unit natParser none 0 [] [] [] rfl⟩

/-! ## C2: deduplication — HtmlParser lemmas -/

/-- The `seen` set only grows across `HtmlParser.parse`. -/
theorem htmlSeen_mono : ∀ (es : List HtmlElement) (seen : List String) (a : String),
    a ∈ seen → a ∈ (htmlExtractResults es seen).2 := by
  intro es
  induction es with
  | nil => intro seen a ha; exact ha
  | cons e es ih =>
    intro seen a ha
    simp only [htmlExtractResults]
    cases hre : htmlExtractResult e with
    | none => exact ih seen a ha
    | some r =>
      by_cases hmem : r.href ∈ seen
      · simp only [if_pos hmem]
        exact ih seen a ha
      · simp only [if_neg hmem]
        exact ih _ a (List.mem_cons_of_mem _ ha)

/-- No result returned by `HtmlParser.parse` has its href in `seen` at
entry. -/
theorem htmlResults_not_in_seen : ∀ (es : List HtmlElement) (seen : List String)
    (r : SearchResult), r ∈ (htmlExtractResults es seen).1 → r.href ∉ seen := by
  intro es
  induction es with
  | nil => intro seen r hr; simp [htmlExtractResults] at hr
  | cons e es ih =>
    intro seen r hr
    simp only [htmlExtractResults] at hr
    cases hre : htmlExtractResult e with
    | none =>
      rw [hre] at hr
      exact ih seen r hr
    | some r₀ =>
      rw [hre] at hr
      simp only [] at hr
      by_cases hmem : r₀.href ∈ seen
      · rw [if_pos hmem] at hr
        exact ih seen r hr
      · rw [if_neg hmem] at hr
        rcases List.mem_cons.mp hr with hr | hr
        · subst hr; exact hmem
        · intro hin
          exact ih _ r hr (List.mem_cons_of_mem _ hin)

/-- Every result returned by `HtmlParser.parse` has its href in the updated
`seen` set at exit. -/
theorem htmlResults_in_final : ∀ (es : List HtmlElement) (seen : List String)
    (r : SearchResult), r ∈ (htmlExtractResults es seen).1 →
    r.href ∈ (htmlExtractResults es seen).2 := by
  intro es
  induction es with
  | nil => intro seen r hr; simp [htmlExtractResults] at hr
  | cons e es ih =>
    intro seen r hr
    simp only [htmlExtractResults] at hr ⊢
    cases hre : htmlExtractResult e with
    | none =>
      rw [hre] at hr
      exact ih seen r hr
    | some r₀ =>
      rw [hre] at hr
      simp only [] at hr
      by_cases hmem : r₀.href ∈ seen
      · rw [if_pos hmem] at hr
        simp only [if_pos hmem]
        exact ih seen r hr
      · rw [if_neg hmem] at hr
        simp only [if_neg hmem]
        rcases List.mem_cons.mp hr with hr | hr
        · subst hr
          exact htmlSeen_mono es _ r.href (List.mem_cons_self _ _)
        · exact ih _ r hr

/-- Every href extractable from an element of the page ends up in the
updated `seen` set, whether or not its result was returned. -/
theorem htmlExtract_in_final : ∀ (es : List HtmlElement) (seen : List String)
    (e : HtmlElement) (r : SearchResult), e ∈ es → htmlExtractResult e = some r →
    r.href ∈ (htmlExtractResults es seen).2 := by
  intro es
  induction es with
  | nil => intro seen e r he _; simp at he
  | cons e₀ es ih =>
    intro seen e r he hre
    simp only [htmlExtractResults]
    rcases List.mem_cons.mp he with he | he
    · subst he
      rw [hre]
      by_cases hmem : r.href ∈ seen
      · simp only [if_pos hmem]
        exact htmlSeen_mono es seen r.href hmem
      · simp only [if_neg hmem]
        exact htmlSeen_mono es _ r.href (List.mem_cons_self _ _)
    · cases hre₀ : htmlExtractResult e₀ with
      | none => exact ih seen e r he hre
      | some r₀ =>
        by_cases hmem : r₀.href ∈ seen
        · simp only [if_pos hmem]
          exact ih seen e r he hre
        · simp only [if_neg hmem]
          exact ih _ e r he hre

/-- If every extractable href of the page is already in `seen`,
`HtmlParser.parse` returns no results. -/
theorem htmlEmpty_of_all_seen : ∀ (es : List HtmlElement) (seen : List String),
    (∀ e ∈ es, ∀ r, htmlExtractResult e = some r → r.href ∈ seen) →
    (htmlExtractResults es seen).1 = [] := by
  intro es
  induction es with
  | nil => intro seen _; rfl
  | cons e es ih =>
    intro seen h
    simp only [htmlExtractResults]
    cases hre : htmlExtractResult e with
    | none => exact ih seen (fun x hx => h x (List.mem_cons_of_mem _ hx))
    | some r =>
      have hmem : r.href ∈ seen := h e (List.mem_cons_self _ _) r hre
      simp only [if_pos hmem]
      exact ih seen (fun x hx => h x (List.mem_cons_of_mem _ hx))

/-- The hrefs of the results of one `HtmlParser.parse` call are pairwise
distinct. -/
theorem htmlNodup : ∀ (es : List HtmlElement) (seen : List String),
    (((htmlExtractResults es seen).1).map SearchResult.href).Nodup := by
  intro es
  induction es with
  | nil => intro seen; simp [htmlExtractResults]
  | cons e es ih =>
    intro seen
    simp only [htmlExtractResults]
    cases hre : htmlExtractResult e with
    | none => exact ih seen
    | some r =>
      by_cases hmem : r.href ∈ seen
      · simp only [if_pos hmem]
        exact ih seen
      · simp only [if_neg hmem]
        refine List.nodup_cons.mpr ⟨?_, ih _⟩
        intro hin
        rcases List.mem_map.mp hin with ⟨r', hr', heq⟩
        exact htmlResults_not_in_seen es _ r' hr' (heq ▸ List.mem_cons_self _ _)

/-! ## C2: deduplication — LiteParser lemmas -/

/-- Strong-induction workhorse for the lite parser: the `seen` set only
grows across a parse, and reparsing the same rows against any superset of
the exit `seen` set returns no results (every processed raw href is in the
exit set, and both runs walk the same result-row positions because every
processed group spans exactly four rows). -/
theorem liteAux : ∀ (n : Nat) (rows : List LiteRow), rows.length ≤ n →
    ∀ (seen : List String),
      (∀ a ∈ seen, a ∈ (liteExtractResults rows seen).2) ∧
      (∀ t, (∀ a ∈ (liteExtractResults rows seen).2, a ∈ t) →
        (liteExtractResults rows t).1 = []) := by
  intro n
  induction n with
  | zero =>
    intro rows hlen seen
    have hnil : rows = [] := List.eq_nil_of_length_eq_zero (Nat.le_zero.mp hlen)
    subst hnil
    exact ⟨fun a ha => ha, fun t _ => rfl⟩
  | succ n ihn =>
    intro rows hlen seen
    rcases rows with _ | ⟨⟨oh, ti, sn⟩, rest⟩
    · exact ⟨fun a ha => ha, fun t _ => rfl⟩
    cases oh with
    | none =>
      rcases rest with _ | ⟨r2, _ | ⟨r3, _ | ⟨r4, rest'⟩⟩⟩
      · exact ⟨fun a ha => ha, fun t _ => rfl⟩
      · exact ⟨fun a ha => ha, fun t _ => rfl⟩
      · exact ⟨fun a ha => ha, fun t _ => rfl⟩
      · have hlen' : rest'.length ≤ n := by
          simp only [List.length_cons] at hlen
          omega
        exact ⟨fun a ha => (ihn rest' hlen' seen).1 a ha,
               fun t ht => (ihn rest' hlen' seen).2 t ht⟩
    | some h =>
      by_cases hfil : h = "" ∨ h ∈ seen ∨
          strStartsWith h adPrefix1 = true ∨ strStartsWith h adPrefix2 = true
      · rcases rest with _ | ⟨r2, _ | ⟨r3, _ | ⟨r4, rest'⟩⟩⟩
        · refine ⟨?_, ?_⟩
          · intro a ha
            simp only [liteExtractResults]
            rw [if_pos hfil]
            exact ha
          · intro t ht
            simp only [liteExtractResults] at ht
            rw [if_pos hfil] at ht
            have hfil' : h = "" ∨ h ∈ t ∨
                strStartsWith h adPrefix1 = true ∨ strStartsWith h adPrefix2 = true := by
              rcases hfil with h1 | h1 | h1 | h1
              · exact Or.inl h1
              · exact Or.inr (Or.inl (ht h h1))
              · exact Or.inr (Or.inr (Or.inl h1))
              · exact Or.inr (Or.inr (Or.inr h1))
            simp only [liteExtractResults]
            rw [if_pos hfil']
        · refine ⟨?_, ?_⟩
          · intro a ha
            simp only [liteExtractResults]
            rw [if_pos hfil]
            exact ha
          · intro t ht
            simp only [liteExtractResults] at ht
            rw [if_pos hfil] at ht
            have hfil' : h = "" ∨ h ∈ t ∨
                strStartsWith h adPrefix1 = true ∨ strStartsWith h adPrefix2 = true := by
              rcases hfil with h1 | h1 | h1 | h1
              · exact Or.inl h1
              · exact Or.inr (Or.inl (ht h h1))
              · exact Or.inr (Or.inr (Or.inl h1))
              · exact Or.inr (Or.inr (Or.inr h1))
            simp only [liteExtractResults]
            rw [if_pos hfil']
        · refine ⟨?_, ?_⟩
          · intro a ha
            simp only [liteExtractResults]
            rw [if_pos hfil]
            exact ha
          · intro t ht
            simp only [liteExtractResults] at ht
            rw [if_pos hfil] at ht
            have hfil' : h = "" ∨ h ∈ t ∨
                strStartsWith h adPrefix1 = true ∨ strStartsWith h adPrefix2 = true := by
              rcases hfil with h1 | h1 | h1 | h1
              · exact Or.inl h1
              · exact Or.inr (Or.inl (ht h h1))
              · exact Or.inr (Or.inr (Or.inl h1))
              · exact Or.inr (Or.inr (Or.inr h1))
            simp only [liteExtractResults]
            rw [if_pos hfil']
        · have hlen' : rest'.length ≤ n := by
            simp only [List.length_cons] at hlen
            omega
          refine ⟨?_, ?_⟩
          · intro a ha
            simp only [liteExtractResults]
            rw [if_pos hfil]
            exact (ihn rest' hlen' seen).1 a ha
          · intro t ht
            simp only [liteExtractResults] at ht
            rw [if_pos hfil] at ht
            have hfil' : h = "" ∨ h ∈ t ∨
                strStartsWith h adPrefix1 = true ∨ strStartsWith h adPrefix2 = true := by
              rcases hfil with h1 | h1 | h1 | h1
              · exact Or.inl h1
              · exact Or.inr (Or.inl (ht h ((ihn rest' hlen' seen).1 h h1)))
              · exact Or.inr (Or.inr (Or.inl h1))
              · exact Or.inr (Or.inr (Or.inr h1))
            simp only [liteExtractResults]
            rw [if_pos hfil']
            exact (ihn rest' hlen' seen).2 t ht
      · rcases rest with _ | ⟨row2, _ | ⟨r3, _ | ⟨r4, rest'⟩⟩⟩
        · refine ⟨?_, ?_⟩
          · intro a ha
            simp only [liteExtractResults]
            rw [if_neg hfil]
            exact List.mem_cons_of_mem _ ha
          · intro t ht
            simp only [liteExtractResults] at ht
            rw [if_neg hfil] at ht
            have hht : h ∈ t := ht h (List.mem_cons_self _ _)
            simp only [liteExtractResults]
            rw [if_pos (Or.inr (Or.inl hht))]
        · refine ⟨?_, ?_⟩
          · intro a ha
            simp only [liteExtractResults]
            rw [if_neg hfil]
            exact List.mem_cons_of_mem _ ha
          · intro t ht
            simp only [liteExtractResults] at ht
            rw [if_neg hfil] at ht
            have hht : h ∈ t := ht h (List.mem_cons_self _ _)
            simp only [liteExtractResults]
            rw [if_pos (Or.inr (Or.inl hht))]
        · refine ⟨?_, ?_⟩
          · intro a ha
            simp only [liteExtractResults]
            rw [if_neg hfil]
            exact List.mem_cons_of_mem _ ha
          · intro t ht
            simp only [liteExtractResults] at ht
            rw [if_neg hfil] at ht
            have hht : h ∈ t := ht h (List.mem_cons_self _ _)
            simp only [liteExtractResults]
            rw [if_pos (Or.inr (Or.inl hht))]
        · have hlen' : rest'.length ≤ n := by
            simp only [List.length_cons] at hlen
            omega
          refine ⟨?_, ?_⟩
          · intro a ha
            simp only [liteExtractResults]
            rw [if_neg hfil]
            exact (ihn rest' hlen' (h :: seen)).1 a (List.mem_cons_of_mem _ ha)
          · intro t ht
            simp only [liteExtractResults] at ht
            rw [if_neg hfil] at ht
            have hht : h ∈ t :=
              ht h ((ihn rest' hlen' (h :: seen)).1 h (List.mem_cons_self _ _))
            simp only [liteExtractResults]
            rw [if_pos (Or.inr (Or.inl hht))]
            exact (ihn rest' hlen' (h :: seen)).2 t ht

/-- The `seen` set only grows across `LiteParser.parse`. -/
theorem liteSeen_mono (rows : List LiteRow) (seen : List String) (a : String)
    (ha : a ∈ seen) : a ∈ (liteExtractResults rows seen).2 :=
  (liteAux rows.length rows le_rfl seen).1 a ha

/-- Reparsing the same lite rows against any superset of the exit `seen`
set yields no results. -/
theorem liteReparse_empty (rows : List LiteRow) (seen t : List String)
    (ht : ∀ a ∈ (liteExtractResults rows seen).2, a ∈ t) :
    (liteExtractResults rows t).1 = [] :=
  (liteAux rows.length rows le_rfl seen).2 t ht

/-! ## C2: the claim, settled -/

/-- C2 (counterexample): `LiteParser` keys its `seen` check on the RAW
href, not the normalized one. With `seen = ["https://ex.com/a"]` at entry,
the lite page whose result row carries the raw href
`"https://ex.com/a?utm_s=1"` (which normalizes to `"https://ex.com/a"`) is
still returned, so parse returns a result whose normalized href WAS in
`seen` at entry — contradicting the claim for the lite backend. -/
theorem lite_normalized_dedup_counterexample :
    (liteExtractResults
        [LiteRow.mk (some "https://ex.com/a?utm_s=1") "T" "",
         LiteRow.mk none "" "S"]
        ["https://ex.com/a"]).1 =
      [SearchResult.mk "T" "https://ex.com/a" "S"] ∧
    (SearchResult.mk "T" "https://ex.com/a" "S").href ∈ ["https://ex.com/a"] := by
  constructor
  · decide
  · decide

/-- C2 (amended): for `HtmlParser` the claim holds as stated with the
normalized href (which is what is stored both in `seen` and in the result):
every returned result's href was absent from `seen` at entry and is in the
updated `seen` at exit, reparsing the same page against the updated set
yields zero results, and the combined output of two pages parsed against a
threaded `seen` set contains each href exactly once. For `LiteParser` the
`seen` set still only grows and reparsing the same body against the updated
set yields zero new results, but its deduplication keys on the RAW
(pre-normalization) href, so a result whose normalized href was already in
`seen` can still be returned (see the counterexample). -/
theorem parse_dedup_amended :
    (∀ (es : List HtmlElement) (seen : List String) (r : SearchResult),
      r ∈ (htmlExtractResults es seen).1 →
      r.href ∉ seen ∧ r.href ∈ (htmlExtractResults es seen).2) ∧
    (∀ (es : List HtmlElement) (seen : List String),
      (htmlExtractResults es (htmlExtractResults es seen).2).1 = []) ∧
    (∀ (es1 es2 : List HtmlElement) (seen : List String),
      (((htmlExtractResults es1 seen).1 ++
        (htmlExtractResults es2 (htmlExtractResults es1 seen).2).1).map
       SearchResult.href).Nodup) ∧
    (∀ (rows : List LiteRow) (seen : List String) (a : String),
      a ∈ seen → a ∈ (liteExtractResults rows seen).2) ∧
    (∀ (rows : List LiteRow) (seen : List String),
      (liteExtractResults rows (liteExtractResults rows seen).2).1 = []) := by
  refine ⟨?_, ?_, ?_, ?_, ?_⟩
  · intro es seen r hr
    exact ⟨htmlResults_not_in_seen es seen r hr, htmlResults_in_final es seen r hr⟩
  · intro es seen
    exact htmlEmpty_of_all_seen es _
      (fun e he r hre => htmlExtract_in_final es seen e r he hre)
  · intro es1 es2 seen
    rw [List.map_append]
    refine List.Nodup.append (htmlNodup es1 seen) (htmlNodup es2 _) ?_
    intro a ha1 ha2
    rcases List.mem_map.mp ha1 with ⟨r1, hr1, he1⟩
    rcases List.mem_map.mp ha2 with ⟨r2, hr2, he2⟩
    have h1 : a ∈ (htmlExtractResults es1 seen).2 :=
      he1 ▸ htmlResults_in_final es1 seen r1 hr1
    have h2 : a ∉ (htmlExtractResults es1 seen).2 :=
      he2 ▸ htmlResults_not_in_seen es2 _ r2 hr2
    exact h2 h1
  · exact fun rows seen a ha => liteSeen_mono rows seen a ha
  · intro rows seen
    exact liteReparse_empty rows seen _ (fun a ha => ha)

/-- Witness for C2's amended theorem at concrete pages. -/
theorem parse_dedup_amended_witness :
    ((SearchResult.mk "T" "https://e.com/x" "B").href ∉ ([] : List String) ∧
     (SearchResult.mk "T" "https://e.com/x" "B").href ∈
       (htmlExtractResults [HtmlElement.mk (some "https://e.com/x") "T" "B"] []).2) ∧
    "x" ∈ (liteExtractResults [] ["x"]).2 :=
  ⟨parse_dedup_amended.1 [HtmlElement.mk (some "https://e.com/x") "T" "B"] []
      (SearchResult.mk "T" "https://e.com/x" "B") (by decide),
   parse_dedup_amended.2.2.2.1 [] ["x"] "x" (by decide)⟩

end DuckSearch
